import Mathlib

/-!
Verification of the TRJM translation system against its specification.

The shared data model is embedded from `packages/shared/types/index.ts`,
the database schema and functions from `deploy/postgres/init.sql`, and the
web interface's option lists from `apps/web/src/app/translate/page.tsx`.
The translation pipeline itself (gateway service) is not part of the
source tree; the parts of it that claims depend on are modelled from the
specification and marked as such.
-/

namespace TRJM

/-- Embedded from packages/shared/types/index.ts: `LanguageCode`. -/
inductive LanguageCode
  | en | ar | fr | de | es | auto
  deriving DecidableEq, BEq

/-- Embedded from packages/shared/types/index.ts: `StylePreset`.  The union
there is exactly formal_msa | neutral | marketing | government_memo. -/
inductive StylePreset
  | formal_msa | neutral | marketing | government_memo
  deriving DecidableEq, BEq

/-- The TS string literal of each `StylePreset` member. -/
def StylePreset.value : StylePreset → String
  | .formal_msa => "formal_msa"
  | .neutral => "neutral"
  | .marketing => "marketing"
  | .government_memo => "government_memo"

/-- The members of `StylePreset`, in declaration order. -/
def allStylePresets : List StylePreset :=
  [.formal_msa, .neutral, .marketing, .government_memo]

/-- The string literals of the `StylePreset` union in
packages/shared/types/index.ts. -/
def tsStylePresetValues : List String :=
  allStylePresets.map StylePreset.value

/-- Embedded from apps/web/src/app/translate/page.tsx: an entry of the
`stylePresets` option list. -/
structure StyleOption where
  value : String
  label : String
  description : String
  deriving DecidableEq

/-- Embedded from apps/web/src/app/translate/page.tsx: the `stylePresets`
list offered by the public translate page. -/
def stylePresets : List StyleOption :=
  [ ⟨"neutral", "Neutral", "Balanced, standard translation"⟩,
    ⟨"formal", "Formal", "Professional, business-appropriate"⟩,
    ⟨"casual", "Casual", "Conversational, friendly tone"⟩,
    ⟨"technical", "Technical", "Precise, domain-specific terminology"⟩,
    ⟨"literary", "Literary", "Eloquent, preserving artistic style"⟩ ]

/-- The five style preset values enumerated by the specification (§3) and
by the repository's docs/API.md; written from the spec's words to be
compared with the source enumerations. -/
def specStylePresetValues : List String :=
  ["neutral", "formal", "casual", "technical", "literary"]

/-- Embedded from packages/shared/types/index.ts: `ContentType`. -/
inductive ContentType
  | general | email | legal | technical | marketing | ui_strings | government
  deriving DecidableEq, BEq

/-- Embedded from packages/shared/types/index.ts: `FormalityLevel`. -/
inductive FormalityLevel
  | informal | neutral | formal | highly_formal
  deriving DecidableEq, BEq

/-- Embedded from packages/shared/types/index.ts: `TranslationRequest`.
Optional TS fields become `Option`; `text` is the only required field. -/
structure TranslationRequest where
  text : String
  source_language : Option LanguageCode := none
  target_language : Option LanguageCode := none
  style_preset : Option StylePreset := none
  glossary_id : Option String := none
  protected_patterns : Option (List String) := none
  deriving DecidableEq

/-- A translation request carrying only the required `text` field; it is a
well-typed `TranslationRequest` value with no target language. -/
def reqNoTarget : TranslationRequest :=
  { text := "Hello" }

/-- Embedded from packages/shared/types/index.ts: `JobStatus` (also the
CHECK constraint on jobs.status in deploy/postgres/init.sql). -/
inductive JobStatus
  | pending | processing | completed | failed | expired
  deriving DecidableEq, BEq

/-- Embedded from deploy/postgres/init.sql: a row of the `jobs` table,
restricted to the columns the verified properties mention.  Note that
`glossary_id` is a bare UUID column with no REFERENCES clause. -/
structure JobRow where
  id : Nat
  user_id : Nat
  status : JobStatus
  expires_at : Int
  glossary_id : Option Nat
  deriving DecidableEq

/-- Whether `cleanup_expired_jobs` deletes a row: the WHERE clause
`expires_at < NOW() AND status != 'processing'` of init.sql. -/
def jobDeletable (now : Int) (j : JobRow) : Bool :=
  decide (j.expires_at < now) && !(j.status == JobStatus.processing)

/-- Embedded from deploy/postgres/init.sql: `cleanup_expired_jobs()`.
`DELETE FROM jobs WHERE expires_at < NOW() AND status != 'processing'`
scanned row by row; the second component is `ROW_COUNT`, the number of
rows deleted, which the function returns. -/
def cleanup_expired_jobs (now : Int) : List JobRow → List JobRow × Nat
  | [] => ([], 0)
  | j :: rest =>
    let r := cleanup_expired_jobs now rest
    if jobDeletable now j then (r.1, r.2 + 1) else (j :: r.1, r.2)

/-- Embedded from deploy/postgres/init.sql: a row of `glossaries`. -/
structure GlossaryRow where
  id : Nat
  name : String
  deriving DecidableEq

/-- Embedded from deploy/postgres/init.sql: a row of `glossary_entries`;
its `glossary_id` column REFERENCES glossaries(id) ON DELETE CASCADE. -/
structure GlossaryEntryRow where
  id : Nat
  glossary_id : Nat
  source_term : String
  target_term : String
  deriving DecidableEq

/-- The database tables involved in glossary deletion. -/
structure DBState where
  glossaries : List GlossaryRow
  glossary_entries : List GlossaryEntryRow
  jobs : List JobRow
  deriving DecidableEq

/-- Deleting a glossary row under the init.sql schema: the row itself is
removed, `glossary_entries` rows referencing it are removed by the
ON DELETE CASCADE clause, and `jobs` is untouched because jobs.glossary_id
carries no foreign-key constraint. -/
def deleteGlossary (gid : Nat) (db : DBState) : DBState :=
  { glossaries := db.glossaries.filter (fun g => !(g.id == gid)),
    glossary_entries := db.glossary_entries.filter (fun e => !(e.glossary_id == gid)),
    jobs := db.jobs }

/-- A job referencing glossary 7, used to exhibit a dangling reference. -/
def danglingJob : JobRow :=
  { id := 10, user_id := 1, status := .completed, expires_at := 50, glossary_id := some 7 }

/-- A database in which deleting glossary 7 leaves `danglingJob` pointing
at a glossary that no longer exists. -/
def dbDangling : DBState :=
  { glossaries := [⟨7, "Tech"⟩],
    glossary_entries := [⟨1, 7, "machine learning", "التعلم الآلي"⟩],
    jobs := [danglingJob] }

/-- Embedded from packages/shared/types/index.ts: `SpecialElementType`. -/
inductive SpecialElementType
  | url | email | placeholder | code | html | bracketed | number | date
  | currency | entity | technical_term
  deriving DecidableEq, BEq

/-- Embedded from packages/shared/types/index.ts: `SpecialElement` (the
ProtectedSpan of the spec).  Text is represented as `List Char`; the
optional TS `position` is carried as half-open offsets `start`/`stop`
(`end` in the source), which the substitution step requires (§3). -/
structure SpecialElement where
  type : SpecialElementType
  value : List Char
  start : Nat
  stop : Nat
  protect : Bool
  deriving DecidableEq

/-- Embedded from packages/shared/types/index.ts: `GlossaryEntry`, with
text as `List Char`; `case_sensitive` defaults to false as in the
init.sql column default. -/
structure GlossaryEntry where
  source : List Char
  target : List Char
  case_sensitive : Bool := false
  context : Option String := none
  deriving DecidableEq

/-- Embedded from packages/shared/types/index.ts: `IssueSeverity`. -/
inductive IssueSeverity
  | critical | major | minor | suggestion
  deriving DecidableEq, BEq

/-- Embedded from packages/shared/types/index.ts: `IssueCategory`. -/
inductive IssueCategory
  | meaning | omission | addition | numbers | entities | glossary
  | protected_tokens | grammar | punctuation | formatting
  | leftover_source | cultural
  deriving DecidableEq, BEq

/-- Embedded from packages/shared/types/index.ts: `QAIssue`. -/
structure QAIssue where
  id : Option String := none
  category : IssueCategory
  severity : IssueSeverity
  description : String
  source_segment : Option String := none
  translation_segment : Option String := none
  suggested_fix : Option String := none
  auto_fixed : Option Bool := none
  deriving DecidableEq, BEq

/-- Embedded from packages/shared/types/index.ts: the risk level of a
`RiskySpan`. -/
inductive RiskLevel
  | low | medium | high
  deriving DecidableEq, BEq

/-- Embedded from packages/shared/types/index.ts: `Position` (its `end`
field is named `stop` here). -/
structure Position where
  start : Nat
  stop : Nat
  deriving DecidableEq

/-- Embedded from packages/shared/types/index.ts: `RiskySpan`. -/
structure RiskySpan where
  text : String
  reason : String
  risk_level : Option RiskLevel := none
  position : Option Position := none
  requires_human_review : Option Bool := none
  deriving DecidableEq

/-- Embedded from packages/shared/types/index.ts: `QAMetrics`. -/
structure QAMetrics where
  total_issues : Nat
  critical_issues : Nat
  major_issues : Nat
  minor_issues : Nat
  suggestions : Nat
  source_char_count : Nat
  translation_char_count : Nat
  length_ratio : ℚ
  deriving DecidableEq

/-- Embedded from packages/shared/types/index.ts: the
`confidence_level` union of `QAReport`. -/
inductive ConfidenceLevel
  | excellent | good | acceptable | poor | unacceptable
  deriving DecidableEq, BEq

/-- Embedded from packages/shared/types/index.ts: `QAReport`.  Both
`glossary_compliance` and `protected_tokens_intact` are booleans there. -/
structure QAReport where
  confidence_score : ℚ
  confidence_level : Option ConfidenceLevel := none
  issues : List QAIssue
  glossary_compliance : Bool
  protected_tokens_intact : Bool
  risky_spans : Option (List RiskySpan) := none
  reviewer_notes : Option String := none
  metrics : Option QAMetrics := none
  deriving DecidableEq

/-! ### Pure text utilities

The pipeline's text scanning is over `List Char`. -/

/-- `leadsWith pat s` is true when `pat` is an initial segment of `s`. -/
def leadsWith : List Char → List Char → Bool
  | [], _ => true
  | _ :: _, [] => false
  | a :: as, b :: bs => a == b && leadsWith as bs

/-- `occursB pat s` is true when `pat` appears contiguously inside `s`. -/
def occursB (pat : List Char) : List Char → Bool
  | [] => leadsWith pat []
  | c :: rest => leadsWith pat (c :: rest) || occursB pat rest

/-- `pat` appears contiguously inside `s` (propositional form). -/
def OccursIn (pat s : List Char) : Prop :=
  ∃ p q, s = p ++ pat ++ q

/-! ### Confidence levels -/

/-- Modelled from the spec: the derivation of `QAReport.confidence_level`
from `confidence_score` (§3: excellent ≥ 0.95, good ≥ 0.85, acceptable
≥ 0.75, poor ≥ 0.5, unacceptable otherwise); the implementing helper
(`getConfidenceLevel` of apps/web/src/lib/utils.ts and the gateway's
reviewer) is not under the source tree. -/
def getConfidenceLevel (s : ℚ) : ConfidenceLevel :=
  if 95/100 ≤ s then .excellent
  else if 85/100 ≤ s then .good
  else if 75/100 ≤ s then .acceptable
  else if 1/2 ≤ s then .poor
  else .unacceptable

/-! ### Placeholder substitution and restoration (Translator stage)

Modelled from the spec (§4.3): before calling the model, each protected
span's literal value is replaced in the text with a stable placeholder
token unique within the unit; afterwards placeholders are substituted
back with the original literal values.  The implementing translator stage
is not under the source tree. -/

/-- Modelled from the spec: the stable placeholder token for the `i`-th
protected span, unique within the unit (§4.3). -/
def phTok (i : Nat) : List Char :=
  '⟦' :: 'P' :: 'H' :: (List.replicate i 'X' ++ ['⟧'])

/-- The characters of a placeholder token after its opening bracket. -/
def phBody (i : Nat) : List Char :=
  'P' :: 'H' :: (List.replicate i 'X' ++ ['⟧'])

/-- Well-formedness of an extracted span list relative to the text it was
extracted from, starting at offset `pos`: spans are ordered and
non-overlapping, offsets are half-open and in range, and each span's
`value` is the literal slice of the text at its offsets (§3, §4.1). -/
def SpansWF (text : List Char) : Nat → List SpecialElement → Prop
  | _, [] => True
  | pos, sp :: rest =>
    pos ≤ sp.start ∧ sp.stop = sp.start + sp.value.length ∧ sp.stop ≤ text.length ∧
    (text.drop sp.start).take sp.value.length = sp.value ∧ SpansWF text sp.stop rest

instance spansWFDecidable (text : List Char) :
    (pos : Nat) → (sps : List SpecialElement) → Decidable (SpansWF text pos sps)
  | _, [] => .isTrue trivial
  | pos, sp :: rest =>
    have : Decidable (SpansWF text sp.stop rest) := spansWFDecidable text sp.stop rest
    by unfold SpansWF; exact inferInstance

/-- Modelled from the spec: substitution of placeholder tokens for the
protected spans of the text from offset `pos` on, the `k`-th span
receiving token `phTok k` (§4.3). -/
def substFrom (text : List Char) : Nat → Nat → List SpecialElement → List Char
  | pos, _, [] => text.drop pos
  | pos, k, sp :: rest =>
    (text.drop pos).take (sp.start - pos) ++ phTok k ++ substFrom text sp.stop (k + 1) rest

/-- Modelled from the spec: the text sent to the model, with every
protected span's literal replaced by its placeholder token (§4.3). -/
def substitutePlaceholders (text : List Char) (sps : List SpecialElement) : List Char :=
  substFrom text 0 0 sps

/-- The restoration table: the `k`-th span's placeholder token paired with
its original literal value. -/
def placeholderReps : Nat → List SpecialElement → List (List Char × List Char)
  | _, [] => []
  | k, sp :: rest => (phTok k, sp.value) :: placeholderReps (k + 1) rest

/-- The first table entry whose token starts the given text, if any. -/
def findRep : List (List Char × List Char) → List Char → Option (List Char × List Char)
  | [], _ => none
  | r :: rest, s => if leadsWith r.1 s then some r else findRep rest s

/-- Modelled from the spec: restoration of the original literal values in
the model's output, replacing each placeholder token occurrence with the
corresponding literal in a single left-to-right scan (§4.3). -/
def restorePlaceholders (reps : List (List Char × List Char)) : List Char → List Char
  | [] => []
  | c :: rest =>
    match findRep reps (c :: rest) with
    | some r => r.2 ++ restorePlaceholders reps (rest.drop (r.1.length - 1))
    | none => c :: restorePlaceholders reps rest
  termination_by s => s.length
  decreasing_by
    · simp only [List.length_drop, List.length_cons]; omega
    · simp only [List.length_cons]; omega

/-- The literal value of the `k`-th span of a list ([] past the end). -/
def spanValueAt : List SpecialElement → Nat → List Char
  | [], _ => []
  | sp :: _, 0 => sp.value
  | _ :: rest, n + 1 => spanValueAt rest n

/-! ### Reviewer verification and QA report assembly

Modelled from the spec (§4.4): the reviewer independently verifies that
every "must protect" span's literal value and every applied glossary
target term appear in the final text, records the corresponding issues,
merges them with model-reported issues deduplicating by
category + excerpt, and computes deterministic metrics.  The implementing
reviewer stage is not under the source tree. -/

/-- Lower-case a character list (for case-insensitive glossary matching). -/
def lcs (s : List Char) : List Char :=
  s.map Char.toLower

/-- Whether a glossary entry's source term is matched in the source text,
respecting its case-sensitivity flag (§4.1). -/
def entryMatches (text : List Char) (e : GlossaryEntry) : Bool :=
  if e.case_sensitive then occursB e.source text else occursB (lcs e.source) (lcs text)

/-- The glossary entries matched against the source text and applied by
the translator (§4.1, §4.3). -/
def appliedEntries (text : List Char) (gl : List GlossaryEntry) : List GlossaryEntry :=
  gl.filter (entryMatches text)

/-- The "must protect" spans whose literal value does not appear in the
final text (§4.4). -/
def missingProtected (sps : List SpecialElement) (finalText : List Char) : List SpecialElement :=
  sps.filter (fun sp => sp.protect && !(occursB sp.value finalText))

/-- The critical `protected_tokens` issue recorded for a missing span. -/
def protectedIssue (sp : SpecialElement) : QAIssue :=
  { category := .protected_tokens, severity := .critical,
    description := "protected token missing from final text",
    source_segment := some (String.mk sp.value), auto_fixed := some false }

/-- The applied glossary entries whose target term does not appear in the
final text (§4.4). -/
def missingGlossary (applied : List GlossaryEntry) (finalText : List Char) : List GlossaryEntry :=
  applied.filter (fun e => !(occursB e.target finalText))

/-- The major `glossary` issue recorded for a missing target term. -/
def glossaryIssue (e : GlossaryEntry) : QAIssue :=
  { category := .glossary, severity := .major,
    description := "glossary target term missing from final text",
    source_segment := some (String.mk e.source),
    suggested_fix := some (String.mk e.target), auto_fixed := some false }

/-- The deduplication key of §4.4: category plus translation excerpt. -/
def sameIssueKey (a b : QAIssue) : Bool :=
  a.category == b.category && a.translation_segment == b.translation_segment

/-- Merge the independently verified issues with the model-reported ones,
deduplicating by category + excerpt (§4.4). -/
def mergeIssues (verified modelReported : List QAIssue) : List QAIssue :=
  verified ++ modelReported.filter (fun mi => !(verified.any (fun vi => sameIssueKey vi mi)))

/-- Count of issues at a given severity. -/
def severityCount (issues : List QAIssue) (sev : IssueSeverity) : Nat :=
  (issues.filter (fun i => i.severity == sev)).length

/-- Deterministic metrics computed from the two texts (§4.4). -/
def computeMetrics (src tgt : List Char) (issues : List QAIssue) : QAMetrics :=
  { total_issues := issues.length,
    critical_issues := severityCount issues .critical,
    major_issues := severityCount issues .major,
    minor_issues := severityCount issues .minor,
    suggestions := severityCount issues .suggestion,
    source_char_count := src.length,
    translation_char_count := tgt.length,
    length_ratio := (tgt.length : ℚ) / (src.length : ℚ) }

/-- Modelled from the spec: assembly of the QA report with the reviewer's
independent verification of protected spans and glossary terms against
the final text (§4.4, §3). -/
def buildQAReport (score : ℚ) (modelIssues : List QAIssue) (sps : List SpecialElement)
    (applied : List GlossaryEntry) (src finalText : List Char) : QAReport :=
  let pMissing := missingProtected sps finalText
  let gMissing := missingGlossary applied finalText
  let verified := pMissing.map protectedIssue ++ gMissing.map glossaryIssue
  let issues := mergeIssues verified modelIssues
  { confidence_score := score,
    confidence_level := some (getConfidenceLevel score),
    issues := issues,
    glossary_compliance := gMissing.isEmpty,
    protected_tokens_intact := pMissing.isEmpty,
    risky_spans := some [],
    reviewer_notes := none,
    metrics := some (computeMetrics src finalText issues) }

/-! ### Orchestrator state machine

Modelled from the spec (§4.7): states
Routing → Translating → Reviewing → (RetryTranslating | PostProcessing) →
Packaging → Done, with the confidence/retry-budget guard of §4.4.  The
implementing orchestrator is not under the source tree. -/

/-- The orchestrator's enumerated states (§4.7). -/
inductive OrchStage
  | routing | translating | reviewing | retryTranslating
  | postProcessing | packaging | done | failed
  deriving DecidableEq, BEq

/-- The orchestrator's per-unit state: current stage, retry count, and
number of translation attempts completed so far. -/
structure OrchState where
  stage : OrchStage
  retries : Nat
  attempts : Nat
  deriving DecidableEq

/-- The configurable constants of §9: confidence threshold and retry cap. -/
structure OrchConfig where
  threshold : ℚ
  maxRetries : Nat

/-- The stated defaults: threshold 0.75, at most 2 retries. -/
def defaultConfig : OrchConfig :=
  { threshold := 3/4, maxRetries := 2 }

/-- The initial orchestrator state of a unit. -/
def orchInit : OrchState :=
  { stage := .routing, retries := 0, attempts := 0 }

/-- Modelled from the spec: one transition of the orchestrator's state
machine (§4.7).  `env k` is the reviewer confidence reported for the
`k`-th translation attempt.  `Reviewing → RetryTranslating` occurs only
when the confidence is below the threshold and the retry count is below
the maximum (§4.4); `RetryTranslating` re-enters the Translator logic and
always proceeds next to `Reviewing`. -/
def orchStep (cfg : OrchConfig) (env : Nat → ℚ) (s : OrchState) : OrchState :=
  match s.stage with
  | .routing => { s with stage := .translating }
  | .translating => { s with stage := .reviewing, attempts := s.attempts + 1 }
  | .reviewing =>
    if env s.attempts < cfg.threshold ∧ s.retries < cfg.maxRetries then
      { s with stage := .retryTranslating, retries := s.retries + 1 }
    else
      { s with stage := .postProcessing }
  | .retryTranslating => { s with stage := .reviewing, attempts := s.attempts + 1 }
  | .postProcessing => { s with stage := .packaging }
  | .packaging => { s with stage := .done }
  | .done => s
  | .failed => s

/-- The state reached after `n` transitions from the initial state; the
reachable states are exactly `orchRun cfg env n` for some `n`. -/
def orchRun (cfg : OrchConfig) (env : Nat → ℚ) : Nat → OrchState
  | 0 => orchInit
  | n + 1 => orchStep cfg env (orchRun cfg env n)

/-- The inductive invariant of the retry loop. -/
def OrchInv (cfg : OrchConfig) (s : OrchState) : Prop :=
  s.retries ≤ cfg.maxRetries ∧ s.attempts ≤ s.retries + 1 ∧
  ((s.stage = .routing ∨ s.stage = .translating ∨ s.stage = .retryTranslating) →
    s.attempts ≤ s.retries)

/-! ### The pipeline operation `run`

Modelled from the spec (§6, §7): `run(unit) → result | error`.  The model
treats the model-completion collaborator as an environment assigning each
stage call its outcome.  Only `RouterValidationError` and
`ModelUnavailableError` exist as fatal kinds; the quality retry loop is
the one of §4.4 with the default budget. -/

/-- The pipeline stages an error can originate from. -/
inductive PipelineStageId
  | router | translator | reviewer | postProcessor | packager
  deriving DecidableEq, BEq

/-- The fatal error kinds of §7. -/
inductive PipelineErrorKind
  | routerValidation | modelUnavailable
  deriving DecidableEq, BEq

/-- A stage-attributed pipeline error with its opaque correlation
identifier (§7; the APIError of index.ts carries `correlation_id`). -/
structure PipelineError where
  stage : PipelineStageId
  kind : PipelineErrorKind
  correlation_id : Nat
  deriving DecidableEq

/-- The outcome of one model-completion call: a conforming structured
result, a schema-violating response, or a collaborator failure (§6). -/
inductive ModelResp (α : Type)
  | ok (val : α)
  | malformed
  | unavailable
  deriving DecidableEq

/-- The Router stage's output contract (§4.2). -/
structure RouterOutput where
  resolved_source : LanguageCode
  content_type : ContentType
  formality : FormalityLevel
  strategy : String
  deriving DecidableEq

/-- The Reviewer stage's model output: reviewed text, confidence score,
and model-reported issues (§4.4). -/
structure ReviewerOutput where
  reviewed : List Char
  confidence : ℚ
  model_issues : List QAIssue
  deriving DecidableEq

/-- The environment of one unit's pipeline execution: the outcome of each
stage's single model call (per attempt for Translator and Reviewer), the
deterministic post-processing function, the unit's correlation identifier
and measured elapsed time. -/
structure PipelineEnv where
  router : ModelResp RouterOutput
  translate : Nat → ModelResp (List Char)
  review : Nat → ModelResp ReviewerOutput
  post : List Char → List Char
  correlation_id : Nat
  elapsed_ms : Nat

/-- The TranslationUnit fields the pipeline model consumes (§3): source
text, languages, style, extracted protected spans and glossary. -/
structure TranslationUnitM where
  id : Nat
  text : List Char
  source_language : LanguageCode
  target_language : LanguageCode
  style : StylePreset
  spans : List SpecialElement
  glossary : List GlossaryEntry

/-- The completed result of a unit (§6): final text, QA report, retry
count, elapsed time, resolved languages. -/
structure PipelineResult where
  final_text : List Char
  qa_report : QAReport
  retries : Nat
  processing_time_ms : Nat
  resolved_source : LanguageCode
  target_language : LanguageCode
  deriving DecidableEq

/-- The auto-fixed formatting issue recorded when post-processing alters
the text (§4.5). -/
def postProcessIssue : QAIssue :=
  { category := .formatting, severity := .minor,
    description := "post-processing normalization applied",
    auto_fixed := some true }

/-- Modelled from the spec: Packager assembly of the terminal result from
already-validated upstream state (§4.6), after the deterministic
post-processing step (§4.5).  Any post-processing change is recorded as
an auto-fixed formatting issue; the QA verification of §4.4 is against
the final text. -/
def packageResult (env : PipelineEnv) (u : TranslationUnitM) (rOut : RouterOutput)
    (applied : List GlossaryEntry) (rev : ReviewerOutput) (retriesUsed : Nat) :
    PipelineResult :=
  let finalText := env.post rev.reviewed
  let rep := buildQAReport rev.confidence rev.model_issues u.spans applied u.text finalText
  let rep' :=
    if finalText == rev.reviewed then rep
    else { rep with issues := rep.issues ++ [postProcessIssue] }
  { final_text := finalText,
    qa_report := rep',
    retries := retriesUsed,
    processing_time_ms := env.elapsed_ms,
    resolved_source := rOut.resolved_source,
    target_language := u.target_language }

/-- Modelled from the spec: one Translator → Reviewer round (§4.3, §4.4):
the two model calls of attempt `attempt`, with collaborator failures and
non-conforming responses surfacing as stage-attributed
`ModelUnavailableError`. -/
def attemptOnce (env : PipelineEnv) (attempt : Nat) :
    Except PipelineError ReviewerOutput :=
  match env.translate attempt with
  | .malformed => .error ⟨.translator, .modelUnavailable, env.correlation_id⟩
  | .unavailable => .error ⟨.translator, .modelUnavailable, env.correlation_id⟩
  | .ok _draft =>
    match env.review attempt with
    | .malformed => .error ⟨.reviewer, .modelUnavailable, env.correlation_id⟩
    | .unavailable => .error ⟨.reviewer, .modelUnavailable, env.correlation_id⟩
    | .ok rev => .ok rev

/-- Modelled from the spec: the Translator → Reviewer quality loop
(§4.4, §4.7).  The first argument is the remaining retry budget; a
low-confidence result with no budget left is still packaged, never
dropped. -/
def runLoop (env : PipelineEnv) (u : TranslationUnitM) (rOut : RouterOutput)
    (applied : List GlossaryEntry) :
    Nat → Nat → Nat → Except PipelineError PipelineResult
  | 0, attempt, retriesUsed =>
    match attemptOnce env attempt with
    | .error e => .error e
    | .ok rev => .ok (packageResult env u rOut applied rev retriesUsed)
  | fuel + 1, attempt, retriesUsed =>
    match attemptOnce env attempt with
    | .error e => .error e
    | .ok rev =>
      if rev.confidence < defaultConfig.threshold then
        runLoop env u rOut applied fuel (attempt + 1) (retriesUsed + 1)
      else .ok (packageResult env u rOut applied rev retriesUsed)

/-- Modelled from the spec: the single per-unit operation
`run(unit) → result | error` (§6).  Router model failures surface as
`ModelUnavailableError`, schema violations (including an unresolved
`auto` source language, §4.2) as `RouterValidationError`; the quality
loop then runs with the default retry budget. -/
def run (env : PipelineEnv) (u : TranslationUnitM) :
    Except PipelineError PipelineResult :=
  match env.router with
  | .malformed => .error ⟨.router, .routerValidation, env.correlation_id⟩
  | .unavailable => .error ⟨.router, .modelUnavailable, env.correlation_id⟩
  | .ok rOut =>
    if rOut.resolved_source = .auto then
      .error ⟨.router, .routerValidation, env.correlation_id⟩
    else
      runLoop env u rOut (appliedEntries u.text u.glossary) defaultConfig.maxRetries 1 0

/-! ## Sample inputs used by the witnesses -/

/-- A must-protect email span. -/
def spanEmailEx : SpecialElement :=
  { type := .email, value := "a@b.c".toList, start := 0, stop := 5, protect := true }

/-- A unit whose source text contains one must-protect email span. -/
def unitEx2 : TranslationUnitM :=
  { id := 1, text := "a@b.c ok".toList, source_language := .auto,
    target_language := .ar, style := .neutral,
    spans := [spanEmailEx], glossary := [] }

/-- A conforming Router output. -/
def routerOutEx : RouterOutput :=
  { resolved_source := .en, content_type := .general,
    formality := .neutral, strategy := "general_ar" }

/-- A confident reviewer response whose text drops the protected email. -/
def revEx2 : ReviewerOutput :=
  { reviewed := "xx".toList, confidence := 9/10, model_issues := [] }

/-- An environment whose model drops the protected email from the draft. -/
def envEx2 : PipelineEnv :=
  { router := .ok routerOutEx,
    translate := fun _ => .ok "xx".toList,
    review := fun _ => .ok revEx2,
    post := fun t => t, correlation_id := 11, elapsed_ms := 42 }

/-- The packaged result of `run envEx2 unitEx2`. -/
def resEx2 : PipelineResult :=
  packageResult envEx2 unitEx2 routerOutEx [] revEx2 0

/-- The glossary entry of the spec's scenario. -/
def glossEntryEx : GlossaryEntry :=
  { source := "machine learning".toList, target := "التعلم الآلي".toList }

/-- A unit whose glossary entry is matched in the source text. -/
def unitEx3 : TranslationUnitM :=
  { id := 2, text := "We use machine learning daily".toList,
    source_language := .en, target_language := .ar, style := .neutral,
    spans := [], glossary := [glossEntryEx] }

/-- A confident reviewer response whose text omits the glossary target. -/
def revEx3 : ReviewerOutput :=
  { reviewed := "nope".toList, confidence := 9/10, model_issues := [] }

/-- An environment whose draft omits the glossary target term. -/
def envEx3 : PipelineEnv :=
  { router := .ok routerOutEx,
    translate := fun _ => .ok "nope".toList,
    review := fun _ => .ok revEx3,
    post := fun t => t, correlation_id := 12, elapsed_ms := 50 }

/-- The packaged result of `run envEx3 unitEx3`. -/
def resEx3 : PipelineResult :=
  packageResult envEx3 unitEx3 routerOutEx [glossEntryEx] revEx3 0

/-- The source text of the spec's protected-span scenario. -/
def textEx4 : List Char :=
  "Contact us at support@example.com for \x7b\x7bticket_id\x7d\x7d details".toList

/-- The email span of `textEx4`. -/
def spanEmailEx4 : SpecialElement :=
  { type := .email, value := "support@example.com".toList,
    start := 14, stop := 33, protect := true }

/-- The placeholder span of `textEx4`. -/
def spanPlaceholderEx4 : SpecialElement :=
  { type := .placeholder, value := "\x7b\x7bticket_id\x7d\x7d".toList,
    start := 38, stop := 51, protect := true }

/-- The two must-protect spans of `textEx4`, in order. -/
def spansEx4 : List SpecialElement :=
  [spanEmailEx4, spanPlaceholderEx4]

/-- An expired processing job: `cleanup_expired_jobs` must keep it. -/
def jobProcessingEx : JobRow :=
  { id := 1, user_id := 1, status := .processing, expires_at := -5, glossary_id := none }

/-- An expired completed job: `cleanup_expired_jobs` deletes it. -/
def jobCompletedEx : JobRow :=
  { id := 2, user_id := 1, status := .completed, expires_at := -5, glossary_id := some 7 }

/-- A job that has not expired yet. -/
def jobPendingEx : JobRow :=
  { id := 3, user_id := 2, status := .pending, expires_at := 100, glossary_id := none }

/-- A jobs table with one deletable row among three. -/
def jobsEx : List JobRow :=
  [jobProcessingEx, jobCompletedEx, jobPendingEx]

/-- A glossary entry attached to a different glossary (id 3). -/
def otherEntryEx : GlossaryEntryRow :=
  ⟨2, 3, "term", "مصطلح"⟩

/-- `dbDangling` extended with `otherEntryEx` and its glossary. -/
def dbDeleteEx : DBState :=
  { glossaries := [⟨7, "Tech"⟩, ⟨3, "Legal"⟩],
    glossary_entries := [⟨1, 7, "machine learning", "التعلم الآلي"⟩, otherEntryEx],
    jobs := [danglingJob] }


theorem leadsWith_iff (t : List Char) :
    ∀ s, leadsWith t s = true ↔ s.take t.length = t ∧ t.length ≤ s.length := by
  induction t with
  | nil => intro s; simp [leadsWith]
  | cons a as ih =>
    intro s
    cases s with
    | nil => simp [leadsWith]
    | cons b bs =>
      simp only [leadsWith, Bool.and_eq_true, beq_iff_eq, ih bs, List.length_cons,
        List.take_succ_cons, List.cons.injEq, Nat.succ_le_succ_iff]
      tauto

theorem leadsWith_append_self (t w : List Char) : leadsWith t (t ++ w) = true := by
  induction t with
  | nil => simp [leadsWith]
  | cons a as ih => simp [leadsWith, ih]

theorem not_occursIn_of_occursB_eq_false {pat : List Char} :
    ∀ {s : List Char}, occursB pat s = false → ¬ OccursIn pat s := by
  intro s
  induction s with
  | nil =>
    intro h hocc
    obtain ⟨p, q, hpq⟩ := hocc
    have hp : p = [] := by
      cases p with
      | nil => rfl
      | cons c cs => simp at hpq
    subst hp
    have hpat : pat = [] := by
      cases pat with
      | nil => rfl
      | cons c cs => simp at hpq
    subst hpat
    simp [occursB, leadsWith] at h
  | cons c rest ih =>
    intro h hocc
    simp only [occursB, Bool.or_eq_false_iff] at h
    obtain ⟨p, q, hpq⟩ := hocc
    cases p with
    | nil =>
      simp only [List.nil_append] at hpq
      rw [hpq] at h
      have := leadsWith_append_self pat q
      rw [this] at h
      exact absurd h.1 (by simp)
    | cons d p' =>
      have h2 : rest = p' ++ pat ++ q := by
        have h3 := hpq
        simp only [List.cons_append, List.cons.injEq] at h3
        exact h3.2
      exact ih h.2 ⟨p', q, h2⟩

theorem occursIn_trans {t a s : List Char} (h1 : OccursIn t a) (h2 : OccursIn a s) :
    OccursIn t s := by
  obtain ⟨p1, q1, h1⟩ := h1
  obtain ⟨p2, q2, h2⟩ := h2
  exact ⟨p2 ++ p1, q1 ++ q2, by rw [h2, h1]; simp⟩

theorem occursIn_of_take {t a : List Char} {i L : Nat} (h : (a.drop i).take L = t) :
    OccursIn t a := by
  refine ⟨a.take i, (a.drop i).drop L, ?_⟩
  rw [← h, List.append_assoc, List.take_append_drop, List.take_append_drop]

theorem occursIn_drop (s : List Char) (pos : Nat) : OccursIn (s.drop pos) s :=
  ⟨s.take pos, [], by simp⟩


theorem phTok_eq_cons (i : Nat) : phTok i = '⟦' :: phBody i := rfl

theorem phTok_length (i : Nat) : (phTok i).length = i + 4 := by
  simp only [phTok, List.length_cons, List.length_append, List.length_replicate,
    List.length_singleton, List.length_nil]

theorem phTok_ne_nil (i : Nat) : phTok i ≠ [] := by
  simp [phTok]

theorem lbrack_not_mem_phBody (i : Nat) : '⟦' ∉ phBody i := by
  simp [phBody]

theorem mem_of_mem_drop_phTok {c : Char} {j d : Nat} (h1 : 1 ≤ d)
    (h2 : c ∈ (phTok j).drop d) : c ∈ phBody j := by
  obtain ⟨e, rfl⟩ : ∃ e, d = e + 1 := ⟨d - 1, by omega⟩
  rw [phTok_eq_cons, List.drop_succ_cons] at h2
  exact List.mem_of_mem_drop h2

theorem leadsWith_rep_inj :
    ∀ (j : Nat), ∀ {k : Nat} {w : List Char},
      leadsWith (List.replicate j 'X' ++ ['⟧']) ((List.replicate k 'X' ++ ['⟧']) ++ w) = true →
      j = k := by
  intro j
  induction j with
  | zero =>
    intro k w h
    cases k with
    | zero => rfl
    | succ k' =>
      rw [List.replicate_succ] at h
      simp only [List.replicate_zero, List.nil_append, List.cons_append, leadsWith,
        Bool.and_eq_true, beq_iff_eq] at h
      exact absurd h.1 (by decide)
  | succ j' ih =>
    intro k w h
    cases k with
    | zero =>
      rw [List.replicate_succ] at h
      simp only [List.replicate_zero, List.nil_append, List.cons_append, leadsWith,
        Bool.and_eq_true, beq_iff_eq] at h
      exact absurd h.1 (by decide)
    | succ k' =>
      rw [List.replicate_succ, List.replicate_succ] at h
      simp only [List.cons_append, leadsWith, Bool.and_eq_true, beq_iff_eq] at h
      exact congrArg Nat.succ (ih h.2)

theorem leadsWith_phTok_inj {j k : Nat} {w : List Char}
    (h : leadsWith (phTok j) (phTok k ++ w) = true) : j = k := by
  simp only [phTok, List.cons_append, leadsWith, Bool.and_eq_true, beq_iff_eq,
    beq_self_eq_true, true_and] at h
  exact leadsWith_rep_inj j h


theorem spanValueAt_of_drop :
    ∀ {sps : List SpecialElement} {k : Nat} {sp : SpecialElement} {rest : List SpecialElement},
      sps.drop k = sp :: rest → spanValueAt sps k = sp.value := by
  intro sps
  induction sps with
  | nil => intro k sp rest h; simp at h
  | cons x xs ih =>
    intro k sp rest h
    cases k with
    | zero =>
      simp only [List.drop_zero] at h
      cases h
      rfl
    | succ e =>
      rw [List.drop_succ_cons] at h
      exact ih h

theorem findRep_eq_none {reps : List (List Char × List Char)} {s : List Char}
    (h : ∀ r ∈ reps, leadsWith r.1 s = false) : findRep reps s = none := by
  induction reps with
  | nil => rfl
  | cons r rest ih =>
    have hr := h r (List.mem_cons_self r rest)
    simp only [findRep, hr, Bool.false_eq_true, if_false]
    exact ih fun r' hr' => h r' (List.mem_cons_of_mem _ hr')

theorem mem_placeholderReps :
    ∀ {sub : List SpecialElement} {m : Nat} {r : List Char × List Char},
      r ∈ placeholderReps m sub → ∃ j, m ≤ j ∧ j < m + sub.length ∧ r.1 = phTok j := by
  intro sub
  induction sub with
  | nil => intro m r h; simp [placeholderReps] at h
  | cons sp rest ih =>
    intro m r h
    simp only [placeholderReps, List.mem_cons] at h
    rcases h with h | h
    · exact ⟨m, le_refl m, by simp only [List.length_cons]; omega, by rw [h]⟩
    · obtain ⟨j, h1, h2, h3⟩ := ih h
      refine ⟨j, by omega, by simp only [List.length_cons] at *; omega, h3⟩

theorem findRep_phTok :
    ∀ {sub : List SpecialElement} {m k : Nat} (w : List Char), m ≤ k →
      k - m < sub.length →
      findRep (placeholderReps m sub) (phTok k ++ w) =
        some (phTok k, spanValueAt sub (k - m)) := by
  intro sub
  induction sub with
  | nil => intro m k w hmk hk; simp at hk
  | cons sp rest ih =>
    intro m k w hmk hk
    by_cases hm : m = k
    · subst hm
      simp only [placeholderReps, findRep, leadsWith_append_self, if_true, Nat.sub_self]
      rfl
    · have hlt : m < k := lt_of_le_of_ne hmk hm
      have hfalse : leadsWith (phTok m) (phTok k ++ w) = false := by
        cases hlw : leadsWith (phTok m) (phTok k ++ w)
        · rfl
        · exact absurd (leadsWith_phTok_inj hlw) hm
      simp only [placeholderReps, findRep, hfalse, Bool.false_eq_true, if_false]
      have hk' : k - (m + 1) < rest.length := by
        simp only [List.length_cons] at hk; omega
      rw [ih w (by omega) hk']
      have hidx : k - m = (k - (m + 1)) + 1 := by omega
      rw [hidx]
      rfl

theorem restore_nil (reps : List (List Char × List Char)) :
    restorePlaceholders reps [] = [] := by
  rw [restorePlaceholders]

theorem restore_cons_none {reps : List (List Char × List Char)} {c : Char} {rest : List Char}
    (h : findRep reps (c :: rest) = none) :
    restorePlaceholders reps (c :: rest) = c :: restorePlaceholders reps rest := by
  rw [restorePlaceholders, h]

theorem restore_cons_some {reps : List (List Char × List Char)} {c : Char}
    {rest : List Char} {r : List Char × List Char}
    (h : findRep reps (c :: rest) = some r) :
    restorePlaceholders reps (c :: rest) =
      r.2 ++ restorePlaceholders reps (rest.drop (r.1.length - 1)) := by
  rw [restorePlaceholders, h]


theorem restore_token {reps : List (List Char × List Char)} {tok lit w : List Char}
    (h : findRep reps (tok ++ w) = some (tok, lit)) (hne : tok ≠ []) :
    restorePlaceholders reps (tok ++ w) = lit ++ restorePlaceholders reps w := by
  cases tok with
  | nil => exact absurd rfl hne
  | cons c tl =>
    rw [List.cons_append] at h ⊢
    rw [restore_cons_some h]
    simp only [List.length_cons, Nat.add_sub_cancel]
    rw [List.drop_left]

theorem restore_append_of_clean {reps : List (List Char × List Char)} :
    ∀ (a u : List Char), (∀ i, i < a.length → findRep reps (a.drop i ++ u) = none) →
      restorePlaceholders reps (a ++ u) = a ++ restorePlaceholders reps u := by
  intro a
  induction a with
  | nil => intro u _; simp
  | cons c a' ih =>
    intro u h
    have h0 : findRep reps (c :: (a' ++ u)) = none := by
      have := h 0 (by simp)
      simpa using this
    rw [List.cons_append, restore_cons_none h0]
    rw [ih u fun i hi => by
      have := h (i + 1) (by simp only [List.length_cons]; omega)
      simpa [List.drop_succ_cons] using this]
    rw [List.cons_append]

theorem findRep_none_at_raw {sps : List SpecialElement} {text : List Char}
    (hocc : ∀ j, j < sps.length → ¬ OccursIn (phTok j) text)
    (a u : List Char) (ha : OccursIn a text)
    (hu : u = [] ∨ ∃ k w, u = phTok k ++ w) :
    ∀ i, i < a.length → findRep (placeholderReps 0 sps) (a.drop i ++ u) = none := by
  intro i hi
  apply findRep_eq_none
  intro r hr
  obtain ⟨j, -, hj, htok⟩ := mem_placeholderReps hr
  rw [htok]
  cases hlw : leadsWith (phTok j) (a.drop i ++ u)
  · rfl
  exfalso
  have hj' : j < sps.length := by simpa using hj
  obtain ⟨htake, hlen⟩ := (leadsWith_iff _ _).mp hlw
  have hAlen : (a.drop i).length = a.length - i := by simp
  by_cases hT : (phTok j).length ≤ (a.drop i).length
  · rw [List.take_append_of_le_length hT] at htake
    exact hocc j hj' (occursIn_trans (occursIn_of_take htake) ha)
  · push_neg at hT
    have hsplit : List.take (phTok j).length (a.drop i ++ u) =
        a.drop i ++ u.take ((phTok j).length - (a.drop i).length) := by
      rw [List.take_append_eq_append_take, List.take_of_length_le (le_of_lt hT)]
    have htake2 : (a.drop i) ++ u.take ((phTok j).length - (a.drop i).length) = phTok j := by
      rw [← hsplit, htake]
    rcases hu with rfl | ⟨k, w, rfl⟩
    · rw [List.take_nil, List.append_nil] at htake2
      have : (a.drop i).length = (phTok j).length := by rw [htake2]
      omega
    · have hm : 1 ≤ (phTok j).length - (a.drop i).length := by omega
      obtain ⟨e, he⟩ : ∃ e, (phTok j).length - (a.drop i).length = e + 1 :=
        ⟨(phTok j).length - (a.drop i).length - 1, by omega⟩
      rw [he, phTok_eq_cons, List.cons_append, List.take_succ_cons] at htake2
      have hdropA : (phTok j).drop (a.drop i).length = '⟦' :: (phBody k ++ w).take e := by
        rw [← htake2, List.drop_left]
      have hmem : '⟦' ∈ (phTok j).drop (a.drop i).length := by
        rw [hdropA]; exact List.mem_cons_self _ _
      have hge : 1 ≤ (a.drop i).length := by omega
      exact lbrack_not_mem_phBody j (mem_of_mem_drop_phTok hge hmem)


theorem restore_substFrom {text : List Char} {sps : List SpecialElement}
    (hocc : ∀ j, j < sps.length → ¬ OccursIn (phTok j) text) :
    ∀ (sub : List SpecialElement) (k pos : Nat), sps.drop k = sub →
      SpansWF text pos sub →
      restorePlaceholders (placeholderReps 0 sps) (substFrom text pos k sub) = text.drop pos := by
  intro sub
  induction sub with
  | nil =>
    intro k pos _ _
    show restorePlaceholders (placeholderReps 0 sps) (text.drop pos) = text.drop pos
    have hclean := findRep_none_at_raw hocc (text.drop pos) [] (occursIn_drop text pos) (Or.inl rfl)
    have := restore_append_of_clean (text.drop pos) [] fun i hi => by
      have := hclean i hi
      simpa using this
    simpa [restore_nil] using this
  | cons sp rest ih =>
    intro k pos hdrop hwf
    obtain ⟨h1, h2, h3, h4, h5⟩ := hwf
    have hrest : sps.drop (k + 1) = rest := by
      rw [← List.tail_drop, hdrop]
      rfl
    have hk : k < sps.length := by
      by_contra hle
      push_neg at hle
      rw [List.drop_eq_nil_of_le hle] at hdrop
      exact List.cons_ne_nil sp rest hdrop.symm
    have hval : spanValueAt sps k = sp.value := spanValueAt_of_drop hdrop
    have e2 : (text.drop pos).drop (sp.start - pos) = text.drop sp.start := by
      rw [List.drop_drop]
      have hps : pos + (sp.start - pos) = sp.start := by omega
      rw [hps]
    have e3 : text.drop sp.start = sp.value ++ text.drop sp.stop := by
      conv_lhs => rw [← List.take_append_drop sp.value.length (text.drop sp.start)]
      rw [h4, List.drop_drop]
      have hvs : sp.start + sp.value.length = sp.stop := by omega
      rw [hvs]
    have hdecomp : text.drop pos =
        (text.drop pos).take (sp.start - pos) ++ (sp.value ++ text.drop sp.stop) := by
      conv_lhs => rw [← List.take_append_drop (sp.start - pos) (text.drop pos)]
      rw [e2, e3]
    have hsegocc : OccursIn ((text.drop pos).take (sp.start - pos)) text :=
      occursIn_of_take rfl
    have htokfind : findRep (placeholderReps 0 sps)
        (phTok k ++ substFrom text sp.stop (k + 1) rest) =
        some (phTok k, sp.value) := by
      rw [findRep_phTok _ (Nat.zero_le k) (by simpa using hk)]
      rw [Nat.sub_zero, hval]
    show restorePlaceholders (placeholderReps 0 sps)
        ((text.drop pos).take (sp.start - pos) ++ phTok k ++ substFrom text sp.stop (k + 1) rest)
        = text.drop pos
    rw [List.append_assoc]
    rw [restore_append_of_clean _ _
      (findRep_none_at_raw hocc _ _ hsegocc (Or.inr ⟨k, substFrom text sp.stop (k + 1) rest, rfl⟩))]
    rw [restore_token htokfind (phTok_ne_nil k)]
    rw [ih (k + 1) sp.stop hrest h5]
    exact hdecomp.symm


/-- C4: substituting each protected span's literal with its unique stable
placeholder token and then restoring the placeholders, with the model
leaving every placeholder untouched, reproduces the original text — and
hence every protected literal value — exactly. -/
theorem placeholder_round_trip (text : List Char) (sps : List SpecialElement)
    (hwf : SpansWF text 0 sps)
    (hocc : ∀ j, j < sps.length → occursB (phTok j) text = false) :
    restorePlaceholders (placeholderReps 0 sps) (substitutePlaceholders text sps) = text := by
  have h := restore_substFrom
    (fun j hj => not_occursIn_of_occursB_eq_false (hocc j hj)) sps 0 0 (List.drop_zero sps) hwf
  simpa [substitutePlaceholders] using h

/-- Witness for C4 at the spec's scenario text with its two must-protect
spans (email and placeholder). -/
theorem placeholder_round_trip_witness :
    restorePlaceholders (placeholderReps 0 spansEx4)
      (substitutePlaceholders textEx4 spansEx4) = textEx4 :=
  placeholder_round_trip textEx4 spansEx4 (by decide) (by decide)


theorem orchInv_init (cfg : OrchConfig) : OrchInv cfg orchInit :=
  ⟨Nat.zero_le _, Nat.zero_le _, fun _ => Nat.le_refl 0⟩

theorem orchInv_step (cfg : OrchConfig) (env : Nat → ℚ) {s : OrchState}
    (h : OrchInv cfg s) : OrchInv cfg (orchStep cfg env s) := by
  obtain ⟨hr, ha, hs⟩ := h
  rcases s with ⟨st, r, a⟩
  have hr' : r ≤ cfg.maxRetries := hr
  have ha' : a ≤ r + 1 := ha
  cases st
  case routing =>
    have h3 : a ≤ r := hs (Or.inl rfl)
    show OrchInv cfg ⟨.translating, r, a⟩
    exact ⟨hr', ha', fun _ => h3⟩
  case translating =>
    have h3 : a ≤ r := hs (Or.inr (Or.inl rfl))
    show OrchInv cfg ⟨.reviewing, r, a + 1⟩
    refine ⟨hr', Nat.succ_le_succ h3, fun hst => ?_⟩
    rcases hst with h' | h' | h' <;> exact OrchStage.noConfusion h'
  case reviewing =>
    show OrchInv cfg (if env a < cfg.threshold ∧ r < cfg.maxRetries then
        (⟨.retryTranslating, r + 1, a⟩ : OrchState) else ⟨.postProcessing, r, a⟩)
    by_cases hc : env a < cfg.threshold ∧ r < cfg.maxRetries
    · rw [if_pos hc]
      exact ⟨hc.2, show a ≤ r + 1 + 1 by omega, fun _ => ha'⟩
    · rw [if_neg hc]
      refine ⟨hr', ha', fun hst => ?_⟩
      rcases hst with h' | h' | h' <;> exact OrchStage.noConfusion h'
  case retryTranslating =>
    have h3 : a ≤ r := hs (Or.inr (Or.inr rfl))
    show OrchInv cfg ⟨.reviewing, r, a + 1⟩
    refine ⟨hr', Nat.succ_le_succ h3, fun hst => ?_⟩
    rcases hst with h' | h' | h' <;> exact OrchStage.noConfusion h'
  case postProcessing =>
    show OrchInv cfg ⟨.packaging, r, a⟩
    refine ⟨hr', ha', fun hst => ?_⟩
    rcases hst with h' | h' | h' <;> exact OrchStage.noConfusion h'
  case packaging =>
    show OrchInv cfg ⟨.done, r, a⟩
    refine ⟨hr', ha', fun hst => ?_⟩
    rcases hst with h' | h' | h' <;> exact OrchStage.noConfusion h'
  case done =>
    exact ⟨hr', ha', hs⟩
  case failed =>
    exact ⟨hr', ha', hs⟩

theorem orchInv_run (cfg : OrchConfig) (env : Nat → ℚ) :
    ∀ n, OrchInv cfg (orchRun cfg env n)
  | 0 => orchInv_init cfg
  | n + 1 => orchInv_step cfg env (orchInv_run cfg env n)

/-- C1: at every reachable state of the orchestrator's retry state
machine the retry count never exceeds 2 and at most three translation
attempts exist; a confidence at or above 0.75 never triggers a retry;
a confidence below 0.75 with retries remaining triggers exactly one
retry, re-entering review with the count incremented by one. -/
theorem retry_state_machine_bounds :
    (∀ (env : Nat → ℚ) (n : Nat),
      (orchRun defaultConfig env n).retries ≤ 2 ∧ (orchRun defaultConfig env n).attempts ≤ 3)
    ∧ (∀ (env : Nat → ℚ) (s : OrchState), s.stage = .reviewing →
        (3 : ℚ)/4 ≤ env s.attempts →
        orchStep defaultConfig env s = { s with stage := .postProcessing })
    ∧ (∀ (env : Nat → ℚ) (s : OrchState), s.stage = .reviewing →
        env s.attempts < (3 : ℚ)/4 → s.retries < 2 →
        (orchStep defaultConfig env s).stage = .retryTranslating
        ∧ (orchStep defaultConfig env s).retries = s.retries + 1
        ∧ (orchStep defaultConfig env (orchStep defaultConfig env s)).stage = .reviewing
        ∧ (orchStep defaultConfig env (orchStep defaultConfig env s)).retries = s.retries + 1) := by
  refine ⟨?_, ?_, ?_⟩
  · intro env n
    obtain ⟨hr, ha, -⟩ := orchInv_run defaultConfig env n
    have hr2 : (orchRun defaultConfig env n).retries ≤ 2 := hr
    have ha2 : (orchRun defaultConfig env n).attempts
        ≤ (orchRun defaultConfig env n).retries + 1 := ha
    exact ⟨hr2, by omega⟩
  · intro env s hst hconf
    rcases s with ⟨st, r, a⟩
    simp only at hst
    subst hst
    show (if env a < defaultConfig.threshold ∧ r < defaultConfig.maxRetries then _ else _) = _
    rw [if_neg]
    rintro ⟨hlt, -⟩
    exact absurd hlt (not_lt.mpr hconf)
  · intro env s hst hconf hretr
    rcases s with ⟨st, r, a⟩
    simp only at hst
    subst hst
    show _ ∧ _ ∧ _ ∧ _
    rw [show orchStep defaultConfig env ⟨.reviewing, r, a⟩
        = ⟨.retryTranslating, r + 1, a⟩ from by
      show (if env a < defaultConfig.threshold ∧ r < defaultConfig.maxRetries then _ else _) = _
      rw [if_pos ⟨hconf, hretr⟩]]
    exact ⟨rfl, rfl, rfl, rfl⟩

/-- Witness for C1: a length-2 prefix of a low-confidence execution, a
high-confidence review that proceeds to post-processing, and a
low-confidence review with budget left that performs exactly one retry. -/
theorem retry_state_machine_bounds_witness :
    ((orchRun defaultConfig (fun _ => (3 : ℚ)/5) 2).retries ≤ 2
      ∧ (orchRun defaultConfig (fun _ => (3 : ℚ)/5) 2).attempts ≤ 3)
    ∧ orchStep defaultConfig (fun _ => (4 : ℚ)/5) ⟨.reviewing, 0, 1⟩
        = { stage := .postProcessing, retries := 0, attempts := 1 }
    ∧ ((orchStep defaultConfig (fun _ => (3 : ℚ)/5) ⟨.reviewing, 0, 1⟩).stage = .retryTranslating
      ∧ (orchStep defaultConfig (fun _ => (3 : ℚ)/5) ⟨.reviewing, 0, 1⟩).retries = 0 + 1
      ∧ (orchStep defaultConfig (fun _ => (3 : ℚ)/5)
          (orchStep defaultConfig (fun _ => (3 : ℚ)/5) ⟨.reviewing, 0, 1⟩)).stage = .reviewing
      ∧ (orchStep defaultConfig (fun _ => (3 : ℚ)/5)
          (orchStep defaultConfig (fun _ => (3 : ℚ)/5) ⟨.reviewing, 0, 1⟩)).retries = 0 + 1) :=
  ⟨retry_state_machine_bounds.1 (fun _ => (3 : ℚ)/5) 2,
   retry_state_machine_bounds.2.1 (fun _ => (4 : ℚ)/5) ⟨.reviewing, 0, 1⟩ rfl (by norm_num),
   retry_state_machine_bounds.2.2 (fun _ => (3 : ℚ)/5) ⟨.reviewing, 0, 1⟩ rfl (by norm_num)
     (by norm_num)⟩


/-- C8 (amended): the derived confidence level is the threshold function
of the confidence score (excellent iff ≥ 0.95, good iff 0.85 ≤ s < 0.95,
acceptable iff 0.75 ≤ s < 0.85, poor iff 0.5 ≤ s < 0.75, unacceptable
iff s < 0.5); a confidence of 0.80 therefore yields level acceptable. -/
theorem confidence_level_thresholds :
    (∀ s : ℚ,
      (getConfidenceLevel s = .excellent ↔ 95/100 ≤ s)
      ∧ (getConfidenceLevel s = .good ↔ 85/100 ≤ s ∧ s < 95/100)
      ∧ (getConfidenceLevel s = .acceptable ↔ 75/100 ≤ s ∧ s < 85/100)
      ∧ (getConfidenceLevel s = .poor ↔ 1/2 ≤ s ∧ s < 75/100)
      ∧ (getConfidenceLevel s = .unacceptable ↔ s < 1/2)) ∧
    getConfidenceLevel (80/100) = .acceptable := by
  constructor
  · intro s
    unfold getConfidenceLevel
    split_ifs with h1 h2 h3 h4 <;>
      push_neg at * <;>
      refine ⟨?_, ?_, ?_, ?_, ?_⟩ <;>
      simp <;>
      first
        | linarith
        | (constructor <;> linarith)
        | (intro hA; linarith)
  · norm_num [getConfidenceLevel]

/-- Counterexample for C8: the thresholds place a confidence of 0.80 in
the acceptable band, not good as the claim's scenario asserts. -/
theorem confidence_level_080_not_good :
    getConfidenceLevel (80/100) = ConfidenceLevel.acceptable
    ∧ (ConfidenceLevel.acceptable == ConfidenceLevel.good) = false := by
  constructor
  · norm_num [getConfidenceLevel]
  · rfl


theorem attemptOnce_error_shape (env : PipelineEnv) (attempt : Nat) (e : PipelineError)
    (h : attemptOnce env attempt = .error e) :
    e.correlation_id = env.correlation_id ∧ e.kind = .modelUnavailable := by
  unfold attemptOnce at h
  cases ht : env.translate attempt with
  | malformed =>
    simp only [ht, Except.error.injEq] at h
    subst h
    exact ⟨rfl, rfl⟩
  | unavailable =>
    simp only [ht, Except.error.injEq] at h
    subst h
    exact ⟨rfl, rfl⟩
  | ok d =>
    cases hrv : env.review attempt with
    | malformed =>
      simp only [ht, hrv, Except.error.injEq] at h
      subst h
      exact ⟨rfl, rfl⟩
    | unavailable =>
      simp only [ht, hrv, Except.error.injEq] at h
      subst h
      exact ⟨rfl, rfl⟩
    | ok rev =>
      simp only [ht, hrv] at h
      exact Except.noConfusion h

theorem attemptOnce_ok_of_env_ok (env : PipelineEnv)
    (htr : ∀ k, ∃ d, env.translate k = .ok d)
    (hrv : ∀ k, ∃ rv, env.review k = .ok rv) (attempt : Nat) :
    ∃ rev, attemptOnce env attempt = .ok rev := by
  obtain ⟨d, hd⟩ := htr attempt
  obtain ⟨rv, hv⟩ := hrv attempt
  exact ⟨rv, by unfold attemptOnce; simp only [hd, hv]⟩

theorem runLoop_error_shape (env : PipelineEnv) (u : TranslationUnitM) (rOut : RouterOutput)
    (applied : List GlossaryEntry) :
    ∀ (fuel attempt retriesUsed : Nat) (e : PipelineError),
      runLoop env u rOut applied fuel attempt retriesUsed = .error e →
      e.correlation_id = env.correlation_id ∧ e.kind = .modelUnavailable := by
  intro fuel
  induction fuel with
  | zero =>
    intro attempt retriesUsed e h
    simp only [runLoop] at h
    cases hao : attemptOnce env attempt with
    | error e' =>
      simp only [hao, Except.error.injEq] at h
      subst h
      exact attemptOnce_error_shape env attempt e' hao
    | ok rev =>
      simp only [hao] at h
      exact Except.noConfusion h
  | succ fuel' ih =>
    intro attempt retriesUsed e h
    simp only [runLoop] at h
    cases hao : attemptOnce env attempt with
    | error e' =>
      simp only [hao, Except.error.injEq] at h
      subst h
      exact attemptOnce_error_shape env attempt e' hao
    | ok rev =>
      simp only [hao] at h
      by_cases hc : rev.confidence < defaultConfig.threshold
      · rw [if_pos hc] at h
        exact ih (attempt + 1) (retriesUsed + 1) e h
      · rw [if_neg hc] at h
        exact Except.noConfusion h

theorem run_error_shape (env : PipelineEnv) (u : TranslationUnitM) (e : PipelineError)
    (h : run env u = .error e) : e.correlation_id = env.correlation_id := by
  cases hr : env.router with
  | malformed =>
    simp only [run, hr, Except.error.injEq] at h
    subst h
    rfl
  | unavailable =>
    simp only [run, hr, Except.error.injEq] at h
    subst h
    rfl
  | ok rOut =>
    simp only [run, hr] at h
    by_cases ha : rOut.resolved_source = LanguageCode.auto
    · rw [if_pos ha] at h
      simp only [Except.error.injEq] at h
      subst h
      rfl
    · rw [if_neg ha] at h
      exact (runLoop_error_shape env u rOut _ _ _ _ e h).1

theorem runLoop_ok_of_env_ok (env : PipelineEnv) (u : TranslationUnitM) (rOut : RouterOutput)
    (applied : List GlossaryEntry)
    (htr : ∀ k, ∃ d, env.translate k = .ok d)
    (hrv : ∀ k, ∃ rv, env.review k = .ok rv) :
    ∀ (fuel attempt retriesUsed : Nat),
      ∃ res, runLoop env u rOut applied fuel attempt retriesUsed = .ok res := by
  intro fuel
  induction fuel with
  | zero =>
    intro attempt retriesUsed
    obtain ⟨rev, hao⟩ := attemptOnce_ok_of_env_ok env htr hrv attempt
    refine ⟨packageResult env u rOut applied rev retriesUsed, ?_⟩
    simp only [runLoop, hao]
  | succ fuel' ih =>
    intro attempt retriesUsed
    obtain ⟨rev, hao⟩ := attemptOnce_ok_of_env_ok env htr hrv attempt
    by_cases hc : rev.confidence < defaultConfig.threshold
    · obtain ⟨res, hres⟩ := ih (attempt + 1) (retriesUsed + 1)
      refine ⟨res, ?_⟩
      simp only [runLoop, hao]
      rw [if_pos hc]
      exact hres
    · refine ⟨packageResult env u rOut applied rev retriesUsed, ?_⟩
      simp only [runLoop, hao]
      rw [if_neg hc]

/-- C5: every pipeline run is exactly a completed result or a single
stage-attributed error carrying a correlation identifier whose kind is
`RouterValidationError` or `ModelUnavailableError`; an environment whose
model calls all succeed always yields a completed result, whatever the
reported confidence. -/
theorem pipeline_outcome_dichotomy :
    (∀ (env : PipelineEnv) (u : TranslationUnitM),
      (∃ res, run env u = .ok res)
      ∨ (∃ e, run env u = .error e
          ∧ (e.kind = .routerValidation ∨ e.kind = .modelUnavailable)
          ∧ e.correlation_id = env.correlation_id))
    ∧ (∀ (env : PipelineEnv) (u : TranslationUnitM) (rOut : RouterOutput),
        env.router = .ok rOut →
        decide (rOut.resolved_source = LanguageCode.auto) = false →
        (∀ k, ∃ d, env.translate k = .ok d) →
        (∀ k, ∃ rv, env.review k = .ok rv) →
        ∃ res, run env u = .ok res) := by
  constructor
  · intro env u
    cases hres : run env u with
    | ok res => exact Or.inl ⟨res, rfl⟩
    | error e =>
      refine Or.inr ⟨e, rfl, ?_, run_error_shape env u e hres⟩
      rcases e with ⟨st, k, c⟩
      cases k
      · exact Or.inl rfl
      · exact Or.inr rfl
  · intro env u rOut hrouter hauto htr hrv
    simp only [run, hrouter]
    rw [if_neg (of_decide_eq_false hauto)]
    exact runLoop_ok_of_env_ok env u rOut _ htr hrv defaultConfig.maxRetries 1 0

/-- Witness for C5: a concrete all-ok environment completes its unit. -/
theorem pipeline_outcome_dichotomy_witness :
    ∃ res, run envEx2 unitEx2 = Except.ok res :=
  pipeline_outcome_dichotomy.2 envEx2 unitEx2 routerOutEx rfl (by decide)
    (fun _ => ⟨_, rfl⟩) (fun _ => ⟨_, rfl⟩)


theorem runLoop_ok_shape (env : PipelineEnv) (u : TranslationUnitM) (rOut : RouterOutput)
    (applied : List GlossaryEntry) :
    ∀ (fuel attempt retriesUsed : Nat) (res : PipelineResult),
      runLoop env u rOut applied fuel attempt retriesUsed = .ok res →
      ∃ rev ru, res = packageResult env u rOut applied rev ru := by
  intro fuel
  induction fuel with
  | zero =>
    intro attempt retriesUsed res h
    simp only [runLoop] at h
    cases hao : attemptOnce env attempt with
    | error e' =>
      simp only [hao] at h
      exact Except.noConfusion h
    | ok rev =>
      simp only [hao, Except.ok.injEq] at h
      exact ⟨rev, retriesUsed, h.symm⟩
  | succ fuel' ih =>
    intro attempt retriesUsed res h
    simp only [runLoop] at h
    cases hao : attemptOnce env attempt with
    | error e' =>
      simp only [hao] at h
      exact Except.noConfusion h
    | ok rev =>
      simp only [hao] at h
      by_cases hc : rev.confidence < defaultConfig.threshold
      · rw [if_pos hc] at h
        exact ih (attempt + 1) (retriesUsed + 1) res h
      · rw [if_neg hc] at h
        simp only [Except.ok.injEq] at h
        exact ⟨rev, retriesUsed, h.symm⟩

theorem run_ok_shape (env : PipelineEnv) (u : TranslationUnitM) (res : PipelineResult)
    (h : run env u = .ok res) :
    ∃ rOut rev ru,
      res = packageResult env u rOut (appliedEntries u.text u.glossary) rev ru := by
  cases hr : env.router with
  | malformed =>
    simp only [run, hr] at h
    exact Except.noConfusion h
  | unavailable =>
    simp only [run, hr] at h
    exact Except.noConfusion h
  | ok rOut =>
    simp only [run, hr] at h
    by_cases ha : rOut.resolved_source = LanguageCode.auto
    · rw [if_pos ha] at h
      exact Except.noConfusion h
    · rw [if_neg ha] at h
      obtain ⟨rev, ru, hres⟩ := runLoop_ok_shape env u rOut _ _ _ _ res h
      exact ⟨rOut, rev, ru, hres⟩

/-- C2: in every packaged unit, a "must protect" span whose literal value
is absent from the final packaged text forces
`protected_tokens_intact = false` and a critical issue of category
`protected_tokens` in the QA report. -/
theorem protected_tokens_invariant :
    ∀ (env : PipelineEnv) (u : TranslationUnitM) (res : PipelineResult),
      run env u = Except.ok res →
      ∀ sp ∈ u.spans, sp.protect = true →
        occursB sp.value res.final_text = false →
        res.qa_report.protected_tokens_intact = false
        ∧ ∃ iss ∈ res.qa_report.issues,
            iss.category = IssueCategory.protected_tokens
            ∧ iss.severity = IssueSeverity.critical := by
  intro env u res hrun sp hmem hprot hmiss
  obtain ⟨rOut, rev, ru, rfl⟩ := run_ok_shape env u res hrun
  simp only [packageResult] at hmiss
  have hmem' : sp ∈ missingProtected u.spans (env.post rev.reviewed) :=
    List.mem_filter.mpr ⟨hmem, by rw [hprot, hmiss]; rfl⟩
  have hie : (missingProtected u.spans (env.post rev.reviewed)).isEmpty = false := by
    cases hmp : missingProtected u.spans (env.post rev.reviewed) with
    | nil => exact absurd hmp (List.ne_nil_of_mem hmem')
    | cons a l => rfl
  constructor
  · simp only [packageResult, buildQAReport]
    split
    · exact hie
    · exact hie
  · refine ⟨protectedIssue sp, ?_, rfl, rfl⟩
    simp only [packageResult, buildQAReport]
    have hmm : protectedIssue sp ∈ mergeIssues
        ((missingProtected u.spans (env.post rev.reviewed)).map protectedIssue
          ++ (missingGlossary (appliedEntries u.text u.glossary)
              (env.post rev.reviewed)).map glossaryIssue)
        rev.model_issues :=
      List.mem_append_left _ (List.mem_append_left _ (List.mem_map_of_mem _ hmem'))
    split
    · exact hmm
    · exact List.mem_append_left _ hmm


/-- Witness for C2: the environment `envEx2` drops the protected email
from the packaged text, so the report flags it. -/
theorem protected_tokens_invariant_witness :
    resEx2.qa_report.protected_tokens_intact = false
    ∧ ∃ iss ∈ resEx2.qa_report.issues,
        iss.category = IssueCategory.protected_tokens
        ∧ iss.severity = IssueSeverity.critical :=
  protected_tokens_invariant envEx2 unitEx2 resEx2
    (by
      have h1 : appliedEntries unitEx2.text unitEx2.glossary = [] := by decide
      simp only [run, resEx2, envEx2, h1]
      rw [if_neg (by decide)]
      norm_num [runLoop, attemptOnce, defaultConfig, routerOutEx, revEx2])
    spanEmailEx (by decide) rfl (by decide)

/-- C3: in every packaged unit, an applied glossary entry whose target
term is absent from the final text forces `glossary_compliance = false`
(a boolean, as in the shared data model) and a major issue of category
`glossary` in the QA report. -/
theorem glossary_compliance_invariant :
    ∀ (env : PipelineEnv) (u : TranslationUnitM) (res : PipelineResult),
      run env u = Except.ok res →
      ∀ e ∈ appliedEntries u.text u.glossary,
        occursB e.target res.final_text = false →
        res.qa_report.glossary_compliance = false
        ∧ ∃ iss ∈ res.qa_report.issues,
            iss.category = IssueCategory.glossary
            ∧ iss.severity = IssueSeverity.major := by
  intro env u res hrun e hmem hmiss
  obtain ⟨rOut, rev, ru, rfl⟩ := run_ok_shape env u res hrun
  simp only [packageResult] at hmiss
  have hmem' : e ∈ missingGlossary (appliedEntries u.text u.glossary) (env.post rev.reviewed) :=
    List.mem_filter.mpr ⟨hmem, by rw [hmiss]; rfl⟩
  have hie : (missingGlossary (appliedEntries u.text u.glossary)
      (env.post rev.reviewed)).isEmpty = false := by
    cases hmp : missingGlossary (appliedEntries u.text u.glossary) (env.post rev.reviewed) with
    | nil => exact absurd hmp (List.ne_nil_of_mem hmem')
    | cons a l => rfl
  constructor
  · simp only [packageResult, buildQAReport]
    split
    · exact hie
    · exact hie
  · refine ⟨glossaryIssue e, ?_, rfl, rfl⟩
    simp only [packageResult, buildQAReport]
    have hmm : glossaryIssue e ∈ mergeIssues
        ((missingProtected u.spans (env.post rev.reviewed)).map protectedIssue
          ++ (missingGlossary (appliedEntries u.text u.glossary)
              (env.post rev.reviewed)).map glossaryIssue)
        rev.model_issues :=
      List.mem_append_left _ (List.mem_append_right _ (List.mem_map_of_mem _ hmem'))
    split
    · exact hmm
    · exact List.mem_append_left _ hmm

/-- Witness for C3: the environment `envEx3` omits the applied glossary
entry's target term, so the report flags it. -/
theorem glossary_compliance_invariant_witness :
    resEx3.qa_report.glossary_compliance = false
    ∧ ∃ iss ∈ resEx3.qa_report.issues,
        iss.category = IssueCategory.glossary
        ∧ iss.severity = IssueSeverity.major :=
  glossary_compliance_invariant envEx3 unitEx3 resEx3
    (by
      have h1 : appliedEntries unitEx3.text unitEx3.glossary = [glossEntryEx] := by decide
      simp only [run, resEx3, envEx3, h1]
      rw [if_neg (by decide)]
      norm_num [runLoop, attemptOnce, defaultConfig, routerOutEx, revEx3])
    glossEntryEx (by decide) (by decide)


/-- C6: the public translate page offers exactly the five spec values
(neutral, formal, casual, technical, literary), but the shared data
model's `StylePreset` union enumerates formal_msa, neutral, marketing and
government_memo instead: it rejects "casual" and adds "formal_msa",
contradicting the repository's own API documentation. -/
theorem stylePreset_enum_divergence :
    stylePresets.map StyleOption.value = specStylePresetValues
    ∧ (∀ p : StylePreset, p ∈ allStylePresets)
    ∧ tsStylePresetValues = ["formal_msa", "neutral", "marketing", "government_memo"]
    ∧ (tsStylePresetValues.contains "casual") = false
    ∧ (specStylePresetValues.contains "formal_msa") = false := by
  refine ⟨rfl, ?_, rfl, by decide, by decide⟩
  intro p
  cases p <;> simp [allStylePresets]

/-- C7: the shared `TranslationRequest` interface marks `target_language`
optional, so a request carrying only `text` type-checks with no target
language, contradicting the required-target claim; the source language
may be `auto`. -/
theorem translationRequest_target_optional :
    reqNoTarget.target_language = none
    ∧ reqNoTarget.text = "Hello"
    ∧ ({ text := "hi", source_language := some LanguageCode.auto,
          target_language := some LanguageCode.ar } : TranslationRequest).source_language
        = some LanguageCode.auto :=
  ⟨rfl, rfl, rfl⟩

/-- C9: `cleanup_expired_jobs` deletes a row exactly when its
`expires_at` is strictly past and its status is not `processing` — an
in-flight job is never deleted — and returns the number of rows
deleted. -/
theorem cleanup_expired_jobs_spec :
    ∀ (now : Int) (jobs : List JobRow),
      (cleanup_expired_jobs now jobs).1 = jobs.filter (fun j => !(jobDeletable now j))
      ∧ (cleanup_expired_jobs now jobs).2 = (jobs.filter (jobDeletable now)).length
      ∧ (∀ j, j ∈ (cleanup_expired_jobs now jobs).1 ↔
          j ∈ jobs ∧ jobDeletable now j = false)
      ∧ (∀ j, j ∈ jobs → j.status = JobStatus.processing →
          j ∈ (cleanup_expired_jobs now jobs).1) := by
  intro now jobs
  have key : ∀ (l : List JobRow),
      (cleanup_expired_jobs now l).1 = l.filter (fun j => !(jobDeletable now j))
      ∧ (cleanup_expired_jobs now l).2 = (l.filter (jobDeletable now)).length := by
    intro l
    induction l with
    | nil => exact ⟨rfl, rfl⟩
    | cons j rest ih =>
      simp only [cleanup_expired_jobs]
      by_cases hd : jobDeletable now j = true
      · rw [if_pos hd]
        refine ⟨?_, ?_⟩
        · rw [List.filter_cons_of_neg (by simp [hd])]
          exact ih.1
        · rw [List.filter_cons_of_pos hd]
          simp [ih.2]
      · rw [if_neg hd]
        have hd' : jobDeletable now j = false := by
          cases hdd : jobDeletable now j
          · rfl
          · exact absurd hdd hd
        refine ⟨?_, ?_⟩
        · rw [List.filter_cons_of_pos (by simp [hd'])]
          rw [ih.1]
        · rw [List.filter_cons_of_neg (by simp [hd'])]
          exact ih.2
  refine ⟨(key jobs).1, (key jobs).2, ?_, ?_⟩
  · intro j
    rw [(key jobs).1, List.mem_filter]
    simp [Bool.not_eq_true']
  · intro j hj hstat
    rw [(key jobs).1, List.mem_filter]
    refine ⟨hj, ?_⟩
    simp [jobDeletable, hstat]
    exact Or.inr rfl

/-- Witness for C9: an expired in-flight job survives the cleanup and the
returned count matches the deleted rows. -/
theorem cleanup_expired_jobs_spec_witness :
    jobProcessingEx ∈ (cleanup_expired_jobs 0 jobsEx).1
    ∧ (cleanup_expired_jobs 0 jobsEx).2 = (jobsEx.filter (jobDeletable 0)).length :=
  ⟨(cleanup_expired_jobs_spec 0 jobsEx).2.2.2 jobProcessingEx (by decide) rfl,
   (cleanup_expired_jobs_spec 0 jobsEx).2.1⟩

/-- C10: deleting a glossary removes exactly the `glossary_entries` rows
referencing it (ON DELETE CASCADE) and leaves every `jobs` row — and its
`glossary_id` — unchanged; existing jobs may then reference a glossary
that no longer exists, since jobs.glossary_id has no foreign key. -/
theorem glossary_delete_cascade_frame :
    (∀ (gid : Nat) (db : DBState),
      (deleteGlossary gid db).jobs = db.jobs
      ∧ (deleteGlossary gid db).glossary_entries
          = db.glossary_entries.filter (fun e => !(e.glossary_id == gid))
      ∧ (∀ e, e ∈ (deleteGlossary gid db).glossary_entries ↔
          e ∈ db.glossary_entries ∧ (e.glossary_id == gid) = false)
      ∧ (∀ g, g ∈ (deleteGlossary gid db).glossaries ↔
          g ∈ db.glossaries ∧ (g.id == gid) = false))
    ∧ (danglingJob ∈ (deleteGlossary 7 dbDeleteEx).jobs
      ∧ danglingJob.glossary_id = some 7
      ∧ (deleteGlossary 7 dbDeleteEx).glossaries.all (fun g => !(g.id == 7)) = true) := by
  constructor
  · intro gid db
    refine ⟨rfl, rfl, ?_, ?_⟩
    · intro e
      simp [deleteGlossary, List.mem_filter]
    · intro g
      simp [deleteGlossary, List.mem_filter]
  · exact ⟨by decide, rfl, by decide⟩

/-- Witness for C10: an entry of a different glossary survives the
cascade, and the jobs table is untouched. -/
theorem glossary_delete_cascade_frame_witness :
    otherEntryEx ∈ (deleteGlossary 7 dbDeleteEx).glossary_entries
    ∧ (deleteGlossary 7 dbDeleteEx).jobs = dbDeleteEx.jobs :=
  ⟨((glossary_delete_cascade_frame.1 7 dbDeleteEx).2.2.1 otherEntryEx).mpr ⟨by decide, by decide⟩,
   (glossary_delete_cascade_frame.1 7 dbDeleteEx).1⟩

end TRJM
